import Mathlib

/-!
Verification of the zipper-based instance navigator (`src/yangson/instance.py`)
and the XPath node-set engine (`src/yangson/nodeset.py`) of the yangson
repository, against its natural-language specification.

The Python code is embedded shallowly:

* Python values (the JSON data model: `None`, `bool`, `int`, `str`, `list`,
  `dict`) become the inductive type `V`; dictionaries are association lists
  in insertion order, which is how Python dicts enumerate.
* Fallible Python code becomes `Except Err _`; the constructors of `Err`
  mirror the library's own exception taxonomy (`NonexistentInstance`,
  `InstanceTypeError`, `DuplicateMember`) plus the raw Python exceptions
  (`AttributeError`, `TypeError`, `KeyError`, `IndexError`) that escape the
  library's `try`/`except` clauses.
* Python's negative indexing and slice clamping are modelled explicitly
  (`pyIdx`, `pyBound`, `pyGetItem`, `pyTakeTo`, `pyDropFrom`).
* For the node-set engine, numbers are modelled as rationals: every concrete
  number appearing in the statements below is small and integral, where IEEE
  doubles are exact, so the rational model agrees with Python floats there.
-/

namespace Yangson

/-- The Python/JSON value model used by `instance.py`: `None`, booleans,
integers, strings, arrays (Python lists) and objects (Python dicts, kept as
association lists in insertion order). -/
inductive V : Type where
  | null : V
  | bool : Bool → V
  | int : Int → V
  | str : String → V
  | arr : List V → V
  | obj : List (String × V) → V

/-- Python `dict` lookup (`d[k]` / `d.get(k)`): first binding of the key.
Dicts built by the library never hold a key twice. -/
def olookup {α : Type} : List (String × α) → String → Option α
  | [], _ => none
  | (k, v) :: rest, q => if k == q then some v else olookup rest q

/-- Python `dict.pop(k)`'s removal effect: drop the bindings of `k`
(a Python dict holds each key once, so this drops the single binding)
while keeping every other binding in its original position. -/
def oerase {α : Type} (d : List (String × α)) (q : String) : List (String × α) :=
  d.filter (fun p => !(p.1 == q))

/-- Python `d[k] = v` on a dict: if `k` is already bound, overwrite in place
(keeping the key's position); otherwise append the new binding at the end. -/
def osetItem {α : Type} (d : List (String × α)) (k : String) (v : α) : List (String × α) :=
  if d.any (fun p => p.1 == k) then d.map (fun p => if p.1 == k then (k, v) else p)
  else d ++ [(k, v)]

mutual
/-- Python `==` on values: numbers compare numerically (`True == 1`),
lists elementwise in order, dicts as key-value maps regardless of order. -/
def pyEqV : V → V → Bool
  | .null, .null => true
  | .bool a, .bool b => a == b
  | .bool a, .int n => (if a then (1 : Int) else 0) == n
  | .int n, .bool a => n == (if a then (1 : Int) else 0)
  | .int m, .int n => m == n
  | .str s, .str t => s == t
  | .arr xs, .arr ys => pyEqArr xs ys
  | .obj d, .obj e => d.length == e.length && pyEqMems d e
  | _, _ => false

/-- Elementwise Python `==` on lists. -/
def pyEqArr : List V → List V → Bool
  | [], [] => true
  | x :: xs, y :: ys => pyEqV x y && pyEqArr xs ys
  | _, _ => false

/-- Every binding of the first dict is present (up to Python `==`) in the
second; with the length check this is Python dict equality. -/
def pyEqMems : List (String × V) → List (String × V) → Bool
  | [], _ => true
  | (k, v) :: d, e =>
      (match olookup e k with
       | some w => pyEqV v w
       | none => false) && pyEqMems d e
end

/-- Failure model: the library's three exception classes (with their message
texts) plus the raw Python exceptions that escape its `try`/`except` blocks. -/
inductive Err : Type where
  | nonexistentInstance : String → Err
  | instanceTypeError : String → Err
  | duplicateMember : String → Err
  | attributeError : Err
  | typeError : Err
  | keyError : Err
  | indexError : Err
  | valueError : Err
deriving DecidableEq, Repr

/-- Zipper context for one ancestor level (`MemberCrumb` / `EntryCrumb`).
A `MemberCrumb` stores the member name and the remaining-members dict; the
stored value is typed `V` because Python would let any value be stored. -/
inductive Crumb : Type where
  | memberCrumb : String → V → Crumb
  | entryCrumb : List V → List V → Crumb

/-- The zipper: a focus value and the root-to-focus trace of crumbs
(outermost first; Python appends the innermost crumb at the end). -/
structure Instance : Type where
  value : V
  trace : List Crumb

/-- The `Crumb.pointer_fragment`: a member crumb yields its name (a Python str),
an entry crumb yields `len(before)` (a Python int). The result is a dynamic
Python value, hence typed `V`. -/
def pointer_fragment : Crumb → V
  | .memberCrumb n _ => .str n
  | .entryCrumb b _ => .int b.length

/-- Python `str.join` requires every item to be a `str`; the first non-string
item raises `TypeError`. This collects the strings or fails like Python. -/
def pyStrs : List V → Except Err (List String)
  | [] => .ok []
  | .str s :: xs => (pyStrs xs).map (fun r => s :: r)
  | _ :: _ => .error .typeError

/-- The `sep.join(items)` in Python. -/
def pyJoin (sep : String) (l : List V) : Except Err String :=
  (pyStrs l).map (fun ss => String.intercalate sep ss)

/-- The `Instance.pointer`: `"/" + "/".join([c.pointer_fragment() for c in trace])`.
Because an entry crumb's fragment is an int, the join raises `TypeError`
whenever the trace contains an `EntryCrumb`. -/
def pointer (i : Instance) : Except Err String :=
  (pyJoin "/" (i.trace.map pointer_fragment)).map (fun s => "/" ++ s)

/-- Characters before the first colon, when one is present. -/
def preColon : List Char → Option (List Char)
  | [] => none
  | c :: rest => if c == ':' then some [] else (preColon rest).map (fun t => c :: t)

/-- Prefix of `n` before its first colon, when `n` contains a colon; this is
what `n.partition(":")` exposes in `Instance.namespace` (`p` when `s` is
nonempty). -/
def colonPre (n : String) : Option String :=
  (preColon n.data).map (fun cs => String.mk cs)

/-- The scanning loop of `Instance.namespace`, already reversed: the head of
the list is the innermost crumb. A member crumb whose name has a colon stops
the scan with the prefix; otherwise (entry crumbs, colon-free member names)
the scan continues outward; falling off the end returns Python `None`. -/
def nsScan : List Crumb → Option String
  | [] => none
  | .memberCrumb n _ :: rest =>
      match colonPre n with
      | some p => some p
      | none => nsScan rest
  | .entryCrumb _ _ :: rest => nsScan rest

/-- The `Instance.namespace` (property): scan the trace innermost-to-outermost. -/
def nspace (i : Instance) : Option String :=
  nsScan i.trace.reverse

/-- The `Instance.member(name)`: on a dict focus, pop `name` from a copy and push
a `MemberCrumb` holding the remainder; `KeyError` becomes
`NonexistentInstance`. On a list focus, `list.copy()` succeeds but
`list.pop(str)` raises `TypeError`, caught as `InstanceTypeError`. On any
other focus, `.copy()` raises `AttributeError`, which escapes uncaught. -/
def member (i : Instance) (name : String) : Except Err Instance :=
  match i.value with
  | .obj o =>
      match olookup o name with
      | some v => .ok ⟨v, i.trace ++ [.memberCrumb name (.obj (oerase o name))]⟩
      | none => .error (.nonexistentInstance ("member " ++ name))
  | .arr _ => .error (.instanceTypeError "member of non-object")
  | _ => .error .attributeError

/-- Python `name in value`: key containment on dicts, element containment
(under Python `==`) on lists, substring test on strings; on `None`, ints and
booleans the `in` operator raises `TypeError`. Substring search is modelled
below for completeness of the dynamic cases. -/
def leadsWith : List Char → List Char → Bool
  | [], _ => true
  | _ :: _, [] => false
  | c :: cs, d :: ds => c == d && leadsWith cs ds

/-- Position of the first occurrence of `nd` in `hay` (Python `str.index`). -/
def subPos : List Char → List Char → Nat → Option Nat
  | hay, nd, k =>
    if leadsWith nd hay then some k
    else match hay with
      | [] => none
      | _ :: t => subPos t nd (k + 1)

/-- Python `in` (membership test), fallible like the Python operator. -/
def pyContains (v : V) (name : String) : Except Err Bool :=
  match v with
  | .obj o => .ok (o.any (fun p => p.1 == name))
  | .arr l => .ok (l.any (fun x => pyEqV x (.str name)))
  | .str s => .ok ((subPos s.data name.data 0).isSome)
  | _ => .error .typeError

/-- The `Instance.new_member(name, value)`: fail `DuplicateMember` when `name` is
already present, else push a `MemberCrumb` holding the original (unshrunk)
object and focus on the new value. -/
def new_member (i : Instance) (name : String) (v : V) : Except Err Instance :=
  match pyContains i.value name with
  | .error e => .error e
  | .ok true => .error (.duplicateMember name)
  | .ok false => .ok ⟨v, i.trace ++ [.memberCrumb name i.value]⟩

/-- Python index normalization: negative indices count from the end. -/
def pyIdx (n : Nat) (i : Int) : Int :=
  if i < 0 then i + n else i

/-- Python `l[i]` on a list: normalize, then in-range or `IndexError`. -/
def pyGetItem (l : List V) (i : Int) : Option V :=
  if h : 0 ≤ pyIdx l.length i ∧ pyIdx l.length i < l.length then
    some (l.get ⟨(pyIdx l.length i).toNat, by omega⟩)
  else none

/-- Python slice-bound clamping for `l[:i]` and `l[i:]`. -/
def pyBound (n : Nat) (i : Int) : Nat :=
  (min (max (pyIdx n i) 0) (n : Int)).toNat

/-- Python `l[:i]`. -/
def pyTakeTo (l : List V) (i : Int) : List V :=
  l.take (pyBound l.length i)

/-- Python `l[i:]`. -/
def pyDropFrom (l : List V) (i : Int) : List V :=
  l.drop (pyBound l.length i)

/-- The `Instance.entry(index)`: focus must be a list; split it as
`val[:index]`, `val[index]`, `val[index+1:]` with Python's indexing and
slicing rules, pushing an `EntryCrumb`; an out-of-range index raises
`IndexError`, caught as `NonexistentInstance`. -/
def entry (i : Instance) (idx : Int) : Except Err Instance :=
  match i.value with
  | .arr l =>
      match pyGetItem l idx with
      | some v =>
          .ok ⟨v, i.trace ++ [.entryCrumb (pyTakeTo l idx) (pyDropFrom l (idx + 1))]⟩
      | none => .error (.nonexistentInstance ("entry " ++ toString idx))
  | _ => .error (.instanceTypeError "entry of non-array")

/-- The `Crumb.zip(value)`: a member crumb sets its name in a copy of its stored
object (`TypeError` when that stored value is a list, `AttributeError` when
it has no `.copy`); an entry crumb rebuilds `before + [value] + after`. -/
def zipC : Crumb → V → Except Err V
  | .memberCrumb name w, v =>
      match w with
      | .obj o => .ok (.obj (osetItem o name v))
      | .arr _ => .error .typeError
      | _ => .error .attributeError
  | .entryCrumb b a, v => .ok (.arr (b ++ v :: a))

/-- The `Instance.up`: pop the innermost crumb and zip; an empty trace makes
`crumb()` raise `IndexError`, caught as `NonexistentInstance("up of top")`. -/
def up (i : Instance) : Except Err Instance :=
  match i.trace.getLast? with
  | none => .error (.nonexistentInstance "up of top")
  | some c => (zipC c i.value).map (fun v => ⟨v, i.trace.dropLast⟩)

/-- The `Instance.next`: the innermost crumb must be an `EntryCrumb`. An empty
trace raises `IndexError` in `crumb()`, which the `except IndexError` arm
turns into `NonexistentInstance("next of last")`; a `MemberCrumb` raises
`AttributeError` at `cr.after`, turned into `InstanceTypeError`; at the last
entry `cr.after[0]` raises `IndexError`, again `NonexistentInstance`. -/
def next (i : Instance) : Except Err Instance :=
  match i.trace.getLast? with
  | none => .error (.nonexistentInstance "next of last")
  | some (.memberCrumb _ _) => .error (.instanceTypeError "next of non-entry")
  | some (.entryCrumb b a) =>
      match a with
      | [] => .error (.nonexistentInstance "next of last")
      | x :: rest => .ok ⟨x, i.trace.dropLast ++ [.entryCrumb (b ++ [i.value]) rest]⟩

/-- The `Instance.previous`: mirror image of `next` (`cr.before[-1]`,
`cr.before[:-1]`, `[value] + cr.after`). -/
def previous (i : Instance) : Except Err Instance :=
  match i.trace.getLast? with
  | none => .error (.nonexistentInstance "previous of first")
  | some (.memberCrumb _ _) => .error (.instanceTypeError "previous of non-entry")
  | some (.entryCrumb b a) =>
      match b.getLast? with
      | none => .error (.nonexistentInstance "previous of first")
      | some x => .ok ⟨x, i.trace.dropLast ++ [.entryCrumb b.dropLast (i.value :: a)]⟩

/-- The four selector variants of `instance.py`
(`MemberName`, `EntryIndex`, `EntryValue`, `EntryKeys`). -/
inductive Selector : Type where
  | memberName (name : String)
  | entryIndex (index : Int)
  | entryValue (value : V)
  | entryKeys (keys : List (String × V))

/-- Python `s[i]` on a string: one character, with negative indexing. -/
def pyGetStr (s : String) (i : Int) : Option Char :=
  let cs := s.data
  let j := pyIdx cs.length i
  if h : 0 ≤ j ∧ j < cs.length then some (cs.get ⟨j.toNat, by omega⟩) else none

/-- Python `l.index(x)` on a list: index of the first element that compares
`==` to `x`, if any (`ValueError` otherwise, reported here as `none`). -/
def pyListIndexAux (x : V) : List V → Nat → Option Nat
  | [], _ => none
  | y :: rest, k => if pyEqV y x then some k else pyListIndexAux x rest (k + 1)

/-- The `l.index(x)` starting from position 0. -/
def pyListIndex (l : List V) (x : V) : Option Nat :=
  pyListIndexAux x l 0

/-- The `str()` of a value, for error-message texts only (containers are
abbreviated; no claim inspects those messages). -/
def pyStrOf : V → String
  | .null => "None"
  | .bool true => "True"
  | .bool false => "False"
  | .int n => toString n
  | .str s => s
  | .arr _ => "<list>"
  | .obj _ => "<dict>"

/-- The inner loop of `EntryKeys` matching: `en[k] != keys[k]` over the keys
dict, in order. A key missing from `en` raises `KeyError`; a non-dict entry
raises `TypeError` at the first subscript — but when the keys dict is empty
the loop body never runs and the entry matches vacuously. -/
def matchKeys : List (String × V) → List (String × V) → Except Err Bool
  | [], _ => .ok true
  | (k, kv) :: rest, d =>
      match olookup d k with
      | none => .error .keyError
      | some w => if pyEqV w kv then matchKeys rest d else .ok false

/-- Whether one candidate entry matches an `EntryKeys` selector. -/
def matchEntry (ks : List (String × V)) (en : V) : Except Err Bool :=
  match en with
  | .obj d => matchKeys ks d
  | _ => if ks.isEmpty then .ok true else .error .typeError

/-- The scan of `EntryKeys.peek_step`: first matching entry, Python `None`
when none matches; `KeyError`/`TypeError` from the subscript escape uncaught
(unlike `look_up`, which catches them). -/
def peekKeysWalk (ks : List (String × V)) : List V → Except Err V
  | [] => .ok .null
  | en :: rest =>
      match matchEntry ks en with
      | .error e => .error e
      | .ok true => .ok en
      | .ok false => peekKeysWalk ks rest

/-- The `peek_step` of each selector variant, on an arbitrary dynamic value.
Absence is Python `None` (`V.null`); a step applied to a value of the wrong
shape raises whatever the Python expression raises (`AttributeError` for a
missing method such as `.get`/`.index`, `TypeError` for a bad subscript or a
non-iterable, `KeyError` for an `int` subscript on a dict). -/
def peekStep : Selector → V → Except Err V
  | .memberName nm, v =>
      match v with
      | .obj o => .ok ((olookup o nm).getD .null)
      | _ => .error .attributeError
  | .entryIndex idx, v =>
      match v with
      | .arr l => .ok ((pyGetItem l idx).getD .null)
      | .str s => .ok (match pyGetStr s idx with
                       | some c => .str (String.mk [c])
                       | none => .null)
      | .obj _ => .error .keyError
      | _ => .error .typeError
  | .entryValue sv, v =>
      match v with
      | .arr l => .ok (match pyListIndex l sv with
                       | some k => l.getD k .null
                       | none => .null)
      | .str s =>
          match sv with
          | .str t =>
              match subPos s.data t.data 0 with
              | some p =>
                  match pyGetStr s (p : Int) with
                  | some c => .ok (.str (String.mk [c]))
                  | none => .error .indexError
              | none => .ok .null
          | _ => .error .typeError
      | _ => .error .attributeError
  | .entryKeys ks, v =>
      match v with
      | .arr l => peekKeysWalk ks l
      | .obj d =>
          match d with
          | [] => .ok .null
          | (k0, _) :: _ => if ks.isEmpty then .ok (.str k0) else .error .typeError
      | .str s =>
          match s.data with
          | [] => .ok .null
          | c :: _ => if ks.isEmpty then .ok (.str (String.mk [c])) else .error .typeError
      | _ => .error .typeError

/-- The fold of `Instance.peek`: `val = self.value`, then
`val = sel.peek_step(val)` for each selector in order. -/
def peekList (v : V) : List Selector → Except Err V
  | [] => .ok v
  | s :: rest =>
      match peekStep s v with
      | .ok v2 => peekList v2 rest
      | .error e => .error e

/-- The `Instance.peek(ii)`. -/
def peek (i : Instance) (ii : List Selector) : Except Err V :=
  peekList i.value ii

/-- The scanning loop of `Instance.look_up`: first entry matching all keys,
as an `entry(i)` navigation from the receiver; `KeyError` from a candidate
becomes `NonexistentInstance`, `TypeError` becomes `InstanceTypeError`. -/
def lookUpWalk (i : Instance) (ks : List (String × V)) : List V → Nat → Except Err Instance
  | [], _ => .error (.nonexistentInstance "entry lookup failed")
  | en :: rest, idx =>
      match matchEntry ks en with
      | .error .keyError => .error (.nonexistentInstance "entry lookup failed")
      | .error _ => .error (.instanceTypeError "lookup on non-list")
      | .ok true => entry i (idx : Int)
      | .ok false => lookUpWalk i ks rest (idx + 1)

/-- The `Instance.look_up(keys)`. -/
def look_up (i : Instance) (ks : List (String × V)) : Except Err Instance :=
  match i.value with
  | .arr l => lookUpWalk i ks l 0
  | _ => .error (.instanceTypeError "lookup on non-list")

/-- The `goto_step` of each selector variant: authoritative navigation.
`EntryValue.goto_step` is `inst.entry(inst.value.index(value))` with
`ValueError` caught as `NonexistentInstance`; on a focus with no `.index`
method the attribute access raises `AttributeError` uncaught. -/
def gotoStep : Selector → Instance → Except Err Instance
  | .memberName nm, i => member i nm
  | .entryIndex idx, i => entry i idx
  | .entryValue sv, i =>
      match i.value with
      | .arr l =>
          match pyListIndex l sv with
          | some k => entry i (k : Int)
          | none => .error (.nonexistentInstance ("entry " ++ pyStrOf sv))
      | .str s =>
          match sv with
          | .str t =>
              match subPos s.data t.data 0 with
              | some p => entry i (p : Int)
              | none => .error (.nonexistentInstance ("entry " ++ pyStrOf sv))
          | _ => .error .typeError
      | _ => .error .attributeError
  | .entryKeys ks, i => look_up i ks

/-! ### Heap-level model of `Instance.member`, for the immutability claim

The pure functions above cannot even express mutation of the receiver, so
the frame property of `member` is verified against a heap model in which
Python dict objects live in a store and values reference them: `member`
first copies the focused dict (allocating a fresh cell) and then pops the
member from the copy, exactly as
`obj = self.value.copy(); obj.pop(name)` does. -/

/-- Heap values: immutable data by value, dict objects by reference. -/
inductive HV : Type where
  | prim : V → HV
  | href : Nat → HV

/-- Crumbs over heap values. -/
inductive HCrumb : Type where
  | memberCrumbH : String → HV → HCrumb
  | entryCrumbH : List HV → List HV → HCrumb

/-- A zipper over heap values. -/
structure HInstance : Type where
  value : HV
  trace : List HCrumb

/-- The store of dict objects; an address is an index into the list. -/
abbrev Heap := List (List (String × HV))

/-- The `Instance.member` at heap level: copy the focused dict into a fresh cell
(`self.value.copy()`), then pop `name` from the copy; the crumb references
the copy. The cell of the receiver's dict is never written. -/
def memberH (h : Heap) (i : HInstance) (name : String) :
    Except Err (Heap × HInstance) :=
  match i.value with
  | .href a =>
      match h[a]? with
      | some d =>
          match olookup d name with
          | some v =>
              .ok (h ++ [oerase d name],
                   ⟨v, i.trace ++ [.memberCrumbH name (.href h.length)]⟩)
          | none => .error (.nonexistentInstance ("member " ++ name))
      | none => .error .typeError
  | .prim (.arr _) => .error (.instanceTypeError "member of non-object")
  | .prim _ => .error .attributeError

/-! ### Node-set model (`nodeset.py`)

A node-set member is externally supplied and exposes a path identity, a
scalar value, a string form and an "is internal" flag (`n.path`, `n.value`,
`str(n)`, `n.is_internal()`). Numbers are modelled as exact rationals; the
float coercion of a string models plain decimal literals (`"3"`, `"-2.5"`),
which covers every number appearing in the statements below, all of which
are exact in IEEE doubles as well. -/

/-- Exact-rational model of Python floats: integer numerator over a positive
denominator, compared by cross multiplication and never normalized, so that
every comparison reduces in the kernel. -/
structure Q : Type where
  num : Int
  den : Nat
deriving DecidableEq, Repr

/-- The rational `n / 1`. -/
def qOfInt (n : Int) : Q := ⟨n, 1⟩

/-- Equality of fractions, by cross multiplication. -/
def qEqB (a b : Q) : Bool := a.num * (b.den : Int) == b.num * (a.den : Int)

/-- Strict order of fractions, by cross multiplication. -/
def qLtB (a b : Q) : Bool := decide (a.num * (b.den : Int) < b.num * (a.den : Int))

/-- Non-strict order of fractions, by cross multiplication. -/
def qLeB (a b : Q) : Bool := decide (a.num * (b.den : Int) ≤ b.num * (a.den : Int))

/-- The values a node-set member may expose; `arrv`/`objv` stand for
structured (non-scalar) values, whose content never matters here. -/
inductive XV : Type where
  | null : XV
  | b : Bool → XV
  | num : Q → XV
  | s : String → XV
  | arrv : XV
  | objv : XV
deriving DecidableEq, Repr

/-- A node-set member, per the collaborator contract of `nodeset.py`. -/
structure XNode : Type where
  path : Nat
  value : XV
  strForm : String
  internal : Bool
deriving DecidableEq, Repr

/-- All characters are decimal digits. -/
def allDigits (cs : List Char) : Bool :=
  cs.all (fun c => c.isDigit)

/-- Value of a digit string. -/
def digitsToNat (cs : List Char) : Nat :=
  cs.foldl (fun n c => 10 * n + (c.toNat - 48)) 0

/-- Whitespace stripped by Python `float(str)` around the literal. -/
def isPySpace (c : Char) : Bool :=
  c == ' ' || c == '\t' || c == '\n' || c == '\r'

/-- Strip leading and trailing whitespace. -/
def pyStrip (cs : List Char) : List Char :=
  ((cs.dropWhile isPySpace).reverse.dropWhile isPySpace).reverse

/-- Python `float(str)` on plain decimal literals: optional sign, digits,
optional fractional part. (`inf`/`nan`/exponents are out of scope; every
string this development evaluates is a plain literal or a non-number.) -/
def parseFloatQ (t : String) : Option Q :=
  let cs := pyStrip t.data
  let signed : Int × List Char :=
    match cs with
    | '-' :: r => (-1, r)
    | '+' :: r => (1, r)
    | r => (1, r)
  let sg := signed.1
  let rest := signed.2
  let ip := rest.takeWhile (fun c => c != '.')
  let rem := rest.drop ip.length
  match rem with
  | [] =>
      if !rest.isEmpty && allDigits rest then
        some ⟨sg * (digitsToNat rest : Int), 1⟩
      else none
  | _ :: frac =>
      if (ip.isEmpty && frac.isEmpty) || !(allDigits ip && allDigits frac) then none
      else some ⟨sg * ((digitsToNat ip * 10 ^ frac.length + digitsToNat frac : Nat) : Int),
                 10 ^ frac.length⟩

/-- Python `float(x)` on a node's value: numbers and booleans coerce,
strings parse or raise `ValueError`, `None` and structured values raise
`TypeError`. -/
def floatOfXV : XV → Except Err Q
  | .num q => .ok q
  | .b true => .ok (qOfInt 1)
  | .b false => .ok (qOfInt 0)
  | .s t =>
      match parseFloatQ t with
      | some q => .ok q
      | none => .error .valueError
  | .null => .error .typeError
  | .arrv => .error .typeError
  | .objv => .error .typeError

/-- The scalar half of `XPathValue`: `str`, `float` or `bool`. -/
inductive XScalar : Type where
  | s : String → XScalar
  | f : Q → XScalar
  | b : Bool → XScalar
deriving DecidableEq, Repr

/-- Python `float(val)` on a scalar comparison target. -/
def floatOfScalar : XScalar → Except Err Q
  | .s t =>
      match parseFloatQ t with
      | some q => .ok q
      | none => .error .valueError
  | .f q => .ok q
  | .b true => .ok (qOfInt 1)
  | .b false => .ok (qOfInt 0)

/-- The `isinstance(x, Number)` on a node value: Python numbers include bools. -/
def xvIsNumber : XV → Bool
  | .num _ => true
  | .b _ => true
  | _ => false

/-- Numeric value of a node value known to be a `Number`. -/
def xvNumVal : XV → Q
  | .num q => q
  | .b true => qOfInt 1
  | .b false => qOfInt 0
  | _ => qOfInt 0

/-- Numeric value of a non-string scalar target (`float`/`bool`); the string
case never reaches this (the methods branch on `isinstance(val, str)` first). -/
def scalarNum : XScalar → Q
  | .f q => q
  | .b true => qOfInt 1
  | .b false => qOfInt 0
  | .s _ => qOfInt 0

/-- Python `==` between a node value and a non-string scalar, the
`n.value == val` fallback branch (node value not a `Number`): `None`,
strings and structured values never equal a float or bool. -/
def pyEqXS : XV → XScalar → Bool
  | .num q, .f r => qEqB q r
  | .num q, .b bb => qEqB q (qOfInt (if bb then 1 else 0))
  | .num _, .s _ => false
  | .b a, .b c => a == c
  | .b a, .f r => qEqB (qOfInt (if a then 1 else 0)) r
  | .b _, .s _ => false
  | .s t, .s u => t == u
  | .s _, _ => false
  | .null, _ => false
  | .arrv, _ => false
  | .objv, _ => false

/-- Body of `NodeSet.__eq__` on a scalar target: loop over members, skip
internal ones, string-compare when the target is a string, numeric-compare
when the member's value is a `Number`, direct `==` otherwise; OR across
members. -/
def eqMeth : List XNode → XScalar → Bool
  | [], _ => false
  | n :: rest, val =>
      if n.internal then eqMeth rest val
      else
        match val with
        | .s u => if n.strForm == u then true else eqMeth rest (.s u)
        | _ =>
            if xvIsNumber n.value then
              if qEqB (xvNumVal n.value) (scalarNum val) then true else eqMeth rest val
            else
              if pyEqXS n.value val then true else eqMeth rest val

/-- Body of `NodeSet.__ne__` on a scalar target: same loop with
"differs from" in place of "equals". -/
def neMeth : List XNode → XScalar → Bool
  | [], _ => false
  | n :: rest, val =>
      if n.internal then neMeth rest val
      else
        match val with
        | .s u => if n.strForm != u then true else neMeth rest (.s u)
        | _ =>
            if xvIsNumber n.value then
              if !qEqB (xvNumVal n.value) (scalarNum val) then true else neMeth rest val
            else
              if !pyEqXS n.value val then true else neMeth rest val

/-- The member loop shared by the four ordering methods: coerce each
member's value to float, skipping members whose coercion raises
(`ValueError`/`TypeError`); true as soon as one satisfies the ordering.
Note: the internal flag is never consulted here. -/
def ordScan (cmp : Q → Q → Bool) (q : Q) : List XNode → Bool
  | [] => false
  | n :: rest =>
      match floatOfXV n.value with
      | .ok r => if cmp r q then true else ordScan cmp q rest
      | .error _ => ordScan cmp q rest

/-- Body of `NodeSet.__gt__` on a scalar target: coerce the target first
(false, not an error, if it does not coerce), then scan the members. -/
def gtMeth (ns : List XNode) (val : XScalar) : Bool :=
  match floatOfScalar val with
  | .error _ => false
  | .ok q => ordScan (fun r q0 => qLtB q0 r) q ns

/-- Body of `NodeSet.__lt__` on a scalar target. -/
def ltMeth (ns : List XNode) (val : XScalar) : Bool :=
  match floatOfScalar val with
  | .error _ => false
  | .ok q => ordScan (fun r q0 => qLtB r q0) q ns

/-- Body of `NodeSet.__ge__` on a scalar target. -/
def geMeth (ns : List XNode) (val : XScalar) : Bool :=
  match floatOfScalar val with
  | .error _ => false
  | .ok q => ordScan (fun r q0 => qLeB q0 r) q ns

/-- Body of `NodeSet.__le__` on a scalar target. -/
def leMeth (ns : List XNode) (val : XScalar) : Bool :=
  match floatOfScalar val with
  | .error _ => false
  | .ok q => ordScan (fun r q0 => qLeB r q0) q ns

/-- An `XPathValue` comparison argument: a node-set or a scalar. -/
inductive XPathV : Type where
  | nsv : List XNode → XPathV
  | sc : XScalar → XPathV

/-- The node-set arm of the `comparison` decorator: loop over the argument
set, skip its internal members, call the method on `str(n)`; OR. -/
def wrapScan (meth : List XNode → XScalar → Bool) (self : List XNode) :
    List XNode → Bool
  | [] => false
  | n :: rest =>
      if n.internal then wrapScan meth self rest
      else if meth self (.s n.strForm) then true
      else wrapScan meth self rest

/-- The `comparison` decorator: dispatch on the argument kind. -/
def wrapCmp (meth : List XNode → XScalar → Bool) (self : List XNode)
    (arg : XPathV) : Bool :=
  match arg with
  | .nsv other => wrapScan meth self other
  | .sc v => meth self v

/-- The `NodeSet.__eq__` with its decorator. -/
def nsEq (self : List XNode) (arg : XPathV) : Bool := wrapCmp eqMeth self arg

/-- The `NodeSet.__ne__` with its decorator. -/
def nsNe (self : List XNode) (arg : XPathV) : Bool := wrapCmp neMeth self arg

/-- The `NodeSet.__gt__` with its decorator. -/
def nsGt (self : List XNode) (arg : XPathV) : Bool := wrapCmp gtMeth self arg

/-- The `NodeSet.__lt__` with its decorator. -/
def nsLt (self : List XNode) (arg : XPathV) : Bool := wrapCmp ltMeth self arg

/-- The `NodeSet.__ge__` with its decorator. -/
def nsGe (self : List XNode) (arg : XPathV) : Bool := wrapCmp geMeth self arg

/-- The `NodeSet.__le__` with its decorator. -/
def nsLe (self : List XNode) (arg : XPathV) : Bool := wrapCmp leMeth self arg

/-- The `NodeSet.__str__`: the string form of the first member, `""` when the
set is empty. -/
def nsStr : List XNode → String
  | [] => ""
  | n :: _ => n.strForm

/-- One step of the dict comprehension `{n.path: n for n in self + ns}`:
a repeated key keeps its (first-insertion) position but takes the new node;
a new key is appended. -/
def dictInsertN (d : List (Nat × XNode)) (n : XNode) : List (Nat × XNode) :=
  if d.any (fun p => p.1 == n.path) then
    d.map (fun p => if p.1 == n.path then (n.path, n) else p)
  else d ++ [(n.path, n)]

/-- The whole comprehension, left to right. -/
def buildDict (l : List XNode) : List (Nat × XNode) :=
  l.foldl dictInsertN []

/-- The `NodeSet.union(ns)`: `{n.path: n for n in self + ns}.values()`. -/
def union (s t : List XNode) : List XNode :=
  (buildDict (s ++ t)).map (fun p => p.2)

/-- Specification-side description of the result order: the distinct paths
in order of first occurrence. -/
def firstKeys : List Nat → List Nat
  | [] => []
  | p :: ps => p :: firstKeys (ps.filter (fun q => !(q == p)))
termination_by l => l.length
decreasing_by
  simp only [List.length_cons]
  exact Nat.lt_succ_of_le (List.length_filter_le _ _)

/-! ### General lemmas about the embedded primitives -/

theorem getLast?_append_single {α : Type} (l : List α) (a : α) :
    (l ++ [a]).getLast? = some a := by
  simp

theorem dropLast_append_single {α : Type} (l : List α) (a : α) :
    (l ++ [a]).dropLast = l := by
  simp

theorem olookup_append {α : Type} (l1 l2 : List (String × α)) (q : String) :
    olookup (l1 ++ l2) q =
      match olookup l1 q with
      | some v => some v
      | none => olookup l2 q := by
  induction l1 with
  | nil => rfl
  | cons p rest ih =>
      obtain ⟨k, v⟩ := p
      cases hk : k == q <;> simp [olookup, hk, ih]

theorem olookup_oerase {α : Type} (o : List (String × α)) (q : String) :
    olookup (oerase o q) q = none := by
  induction o with
  | nil => rfl
  | cons p rest ih =>
      obtain ⟨k, v⟩ := p
      have ih2 := ih
      cases hk : k == q <;>
        simp only [oerase, List.filter_cons, hk, Bool.not_true, Bool.not_false,
          if_true, if_false, olookup] <;> simpa [oerase] using ih2

theorem any_oerase {α : Type} (o : List (String × α)) (q : String) :
    ((oerase o q).any (fun p => p.1 == q)) = false := by
  induction o with
  | nil => rfl
  | cons p rest ih =>
      obtain ⟨k, v⟩ := p
      cases hk : k == q
      · simp [oerase, List.filter_cons, hk]
      · simp [oerase, List.filter_cons, hk]

/-! ### C10 -/

/-- C10: string coercion of a node-set is total; it returns `""` on the
empty set and the string form of the first member otherwise
(`NodeSet.__str__`). -/
theorem c10_str_total :
    nsStr [] = "" ∧ ∀ (n : XNode) (rest : List XNode), nsStr (n :: rest) = n.strForm :=
  ⟨rfl, fun _ _ => rfl⟩

/-! ### C8 -/

/-- Whether a navigation result failed with `InstanceTypeError`. -/
def errIsInstanceType : Except Err Instance → Bool
  | .error (.instanceTypeError _) => true
  | _ => false

/-- C8 (counterexample): on an empty trace, `next` and `previous` fail with
`NonexistentInstance` — the missing crumb surfaces as `IndexError`, which the
boundary handler catches — not with `InstanceTypeError` as the claim states. -/
theorem c8_empty_trace_counterexample :
    next ⟨.int 0, []⟩ = .error (.nonexistentInstance "next of last") ∧
    errIsInstanceType (next ⟨.int 0, []⟩) = false ∧
    previous ⟨.int 0, []⟩ = .error (.nonexistentInstance "previous of first") ∧
    errIsInstanceType (previous ⟨.int 0, []⟩) = false :=
  ⟨rfl, rfl, rfl, rfl⟩

/-- C8 (amended): `next`/`previous` fail with `InstanceTypeError` when the
innermost crumb is a `MemberCrumb`; with an *empty* trace they fail with
`NonexistentInstance` (the `IndexError` raised by `crumb()` is caught by the
boundary arm); on an `EntryCrumb` they fail with `NonexistentInstance`
exactly at the corresponding array boundary and otherwise move the focus,
shifting `before`/`after`. -/
theorem c8_next_previous_amended :
    (∀ v : V,
        next ⟨v, []⟩ = .error (.nonexistentInstance "next of last") ∧
        previous ⟨v, []⟩ = .error (.nonexistentInstance "previous of first")) ∧
    (∀ (v : V) (tr : List Crumb) (nm : String) (w : V),
        next ⟨v, tr ++ [.memberCrumb nm w]⟩
          = .error (.instanceTypeError "next of non-entry") ∧
        previous ⟨v, tr ++ [.memberCrumb nm w]⟩
          = .error (.instanceTypeError "previous of non-entry")) ∧
    (∀ (v : V) (tr : List Crumb) (b a : List V),
        next ⟨v, tr ++ [.entryCrumb b a]⟩
          = (match a with
             | [] => .error (.nonexistentInstance "next of last")
             | x :: rest => .ok ⟨x, tr ++ [.entryCrumb (b ++ [v]) rest]⟩)) ∧
    (∀ (v : V) (tr : List Crumb) (b a : List V),
        previous ⟨v, tr ++ [.entryCrumb b a]⟩
          = (match b.getLast? with
             | none => .error (.nonexistentInstance "previous of first")
             | some x => .ok ⟨x, tr ++ [.entryCrumb b.dropLast (v :: a)]⟩)) := by
  refine ⟨fun v => ⟨rfl, rfl⟩, fun v tr nm w => ⟨?_, ?_⟩, fun v tr b a => ?_, fun v tr b a => ?_⟩
  · simp [next, getLast?_append_single]
  · simp [previous, getLast?_append_single]
  · cases a <;> simp [next, getLast?_append_single, dropLast_append_single]
  · cases hb : b.getLast? <;>
      simp [previous, getLast?_append_single, dropLast_append_single, hb]

/-! ### C9 -/

/-- C9 (counterexample): with trace
`[MemberCrumb "a:x", MemberCrumb "plain"]` (innermost last), the innermost
`MemberCrumb` has no colon, yet `namespace` consults the outer crumb and
returns `"a"`; the claim says it should return no value. -/
theorem c9_outer_crumb_counterexample :
    nspace ⟨.null, [.memberCrumb "a:x" (.obj []), .memberCrumb "plain" (.obj [])]⟩
      = some "a" ∧
    nspace ⟨.null, [.memberCrumb "a:x" (.obj []), .memberCrumb "plain" (.obj [])]⟩
      ≠ none :=
  ⟨rfl, fun h => Option.noConfusion h⟩

/-- C9 (amended): `namespace` is determined by the *innermost MemberCrumb
whose name contains a colon*: member crumbs without a colon and entry crumbs
are skipped and the scan continues outward; only when no member-crumb name
in the whole trace contains a colon is no value returned. The prefix
returned is the part before the first colon of that name. -/
theorem c9_namespace_amended :
    (∀ v : V, nspace ⟨v, []⟩ = none) ∧
    (∀ (v : V) (tr : List Crumb) (b a : List V),
        nspace ⟨v, tr ++ [.entryCrumb b a]⟩ = nspace ⟨v, tr⟩) ∧
    (∀ (v : V) (tr : List Crumb) (nm : String) (w : V),
        nspace ⟨v, tr ++ [.memberCrumb nm w]⟩
          = (match colonPre nm with
             | some p => some p
             | none => nspace ⟨v, tr⟩)) := by
  refine ⟨fun v => rfl, fun v tr b a => ?_, fun v tr nm w => ?_⟩
  · simp [nspace, List.reverse_append, nsScan]
  · cases hc : colonPre nm <;> simp [nspace, List.reverse_append, nsScan, hc]

/-! ### C1 -/

/-- C1 (code bug): navigating `member("a")` then `entry(2)` from the root
`{"a": [10, 20, 30]}` and asking for the JSON pointer raises `TypeError`
instead of returning `"/a/2"`: `EntryCrumb.pointer_fragment` returns an int
and `"/".join` rejects non-string items. -/
theorem c1_pointer_raises :
    ((member ⟨.obj [("a", .arr [.int 10, .int 20, .int 30])], []⟩ "a").bind
        (fun j => entry j 2)).bind pointer = .error .typeError ∧
    ((member ⟨.obj [("a", .arr [.int 10, .int 20, .int 30])], []⟩ "a").bind
        (fun j => entry j 2)).bind pointer ≠ .ok "/a/2" :=
  ⟨rfl, fun h => Except.noConfusion h⟩

/-! ### Counterexamples for C2, C3, C4, C7 -/

/-- C2 (counterexample): `peek` *does* fail: from the root `{}` and the path
`member "a" / member "b"`, the first step finds no value (Python `None`) and
the second step's `None.get("b")` raises `AttributeError` — absence does not
propagate through the remaining steps. -/
theorem c2_peek_raises_counterexample :
    peek ⟨.obj [], []⟩ [.memberName "a", .memberName "b"] = .error .attributeError :=
  rfl

/-- C3 (counterexample): a node-set whose single member is internal with
numeric value 5 compares `> 3.0` as `True`: the ordering comparisons never
consult the internal flag, so an all-internal set does not compare false
against every scalar. (Equality on the same set is `False`, which shows the
flag *is* honoured there.) -/
theorem c3_ordering_counterexample :
    nsGt [⟨0, .num (qOfInt 5), "5", true⟩] (.sc (.f (qOfInt 3))) = true ∧
    nsEq [⟨0, .num (qOfInt 5), "5", true⟩] (.sc (.f (qOfInt 5))) = false :=
  ⟨rfl, rfl⟩

/-- C4 (counterexample): `entry(-1)` on the array `[10, 20]` succeeds (it is
a valid Python index), but `up` rebuilds `[10, 20, 10, 20]`, not the
original array: the slice `val[index+1:]` is the whole list when
`index = -1`. -/
theorem c4_entry_neg_one_counterexample :
    (entry ⟨.arr [.int 10, .int 20], []⟩ (-1)).bind up
      = .ok ⟨.arr [.int 10, .int 20, .int 10, .int 20], []⟩ ∧
    V.arr [.int 10, .int 20, .int 10, .int 20] ≠ V.arr [.int 10, .int 20] :=
  ⟨rfl, by simp⟩

/-- C7 (counterexample): `new_member("x", 5)` focuses on the *new value* 5,
so chaining `.member("x")` immediately calls `member` on the int focus and
raises `AttributeError` (`int` has no `.copy`); the chain does not succeed
with focus 5. The claim's navigation is missing an `up`. -/
theorem c7_chain_counterexample :
    (new_member ⟨.obj [], []⟩ "x" (.int 5)).bind (fun j => member j "x")
      = .error .attributeError ∧
    ((new_member ⟨.obj [], []⟩ "x" (.int 5)).bind (fun j => member j "x")).map
        Instance.value ≠ .ok (.int 5) :=
  ⟨rfl, fun h => Except.noConfusion h⟩

/-! ### C2 (amended theorem) -/

/-- Whether a fallible result succeeded. -/
def exOk {α : Type} : Except Err α → Bool
  | .ok _ => true
  | .error _ => false

/-- The Python exception each selector's `peek_step` raises when applied to
`None` (an absent value produced by an earlier step). -/
def noneErr : Selector → Err
  | .memberName _ => .attributeError
  | .entryIndex _ => .typeError
  | .entryValue _ => .attributeError
  | .entryKeys _ => .typeError

theorem peekStep_null (s : Selector) : peekStep s .null = .error (noneErr s) := by
  cases s <;> rfl

theorem peekList_append (v : V) (l1 l2 : List Selector) :
    peekList v (l1 ++ l2) =
      match peekList v l1 with
      | .ok w => peekList w l2
      | .error e => .error e := by
  induction l1 generalizing v with
  | nil => rfl
  | cons s rest ih =>
      simp only [List.cons_append, peekList]
      cases peekStep s v with
      | ok w => exact ih w
      | error e => rfl

/-- An entry is a dict that has every key the selector asks for. -/
def entryComplete (ks : List (String × V)) : V → Bool
  | .obj d => ks.all (fun p => (olookup d p.1).isSome)
  | _ => false

theorem matchKeys_no_error (ks : List (String × V)) (d : List (String × V))
    (h : ks.all (fun p => (olookup d p.1).isSome) = true) :
    exOk (matchKeys ks d) = true := by
  induction ks with
  | nil => rfl
  | cons p rest ih =>
      obtain ⟨k, kv⟩ := p
      simp only [List.all_cons, Bool.and_eq_true] at h
      obtain ⟨h1, h2⟩ := h
      cases hl : olookup d k with
      | none => rw [hl] at h1; simp at h1
      | some w =>
          simp only [matchKeys, hl]
          cases hw : pyEqV w kv
          · simp [hw, exOk]
          · simp [hw, ih h2]

theorem peekKeysWalk_ok (ks : List (String × V)) (l : List V)
    (h : ∀ en ∈ l, entryComplete ks en = true) :
    exOk (peekKeysWalk ks l) = true := by
  induction l with
  | nil => rfl
  | cons en rest ih =>
      have hen := h en (List.mem_cons_self en rest)
      have hrest : ∀ x ∈ rest, entryComplete ks x = true :=
        fun x hx => h x (List.mem_cons_of_mem en hx)
      cases en with
      | obj d =>
          have hmk := matchKeys_no_error ks d hen
          simp only [peekKeysWalk, matchEntry]
          cases hm : matchKeys ks d with
          | error e => rw [hm] at hmk; simp [exOk] at hmk
          | ok bb =>
              cases bb
              · exact ih hrest
              · rfl
      | null => simp [entryComplete] at hen
      | bool b => simp [entryComplete] at hen
      | int n => simp [entryComplete] at hen
      | str s => simp [entryComplete] at hen
      | arr l2 => simp [entryComplete] at hen

/-- C2 (amended): absence does not propagate through `peek`; it only yields
"no value" when it occurs at the *last* step. Precisely: if a prefix of the
path already evaluates to Python `None`, appending any further selector
makes `peek` raise that selector's exception on `None`
(`AttributeError` for member/value selectors, `TypeError` for index/keys
selectors). Each single `peek_step` on a focus of the shape its selector
expects (a dict for `MemberName`, a list for the entry selectors — with all
requested keys present for `EntryKeys`) does succeed without raising. -/
theorem c2_peek_amended :
    (∀ (i : Instance) (ss rest : List Selector) (s : Selector),
        peek i ss = .ok .null →
        peek i (ss ++ s :: rest) = .error (noneErr s)) ∧
    (∀ (nm : String) (o : List (String × V)),
        exOk (peekStep (.memberName nm) (.obj o)) = true) ∧
    (∀ (idx : Int) (l : List V), exOk (peekStep (.entryIndex idx) (.arr l)) = true) ∧
    (∀ (sv : V) (l : List V), exOk (peekStep (.entryValue sv) (.arr l)) = true) ∧
    (∀ (ks : List (String × V)) (l : List V),
        (∀ en ∈ l, entryComplete ks en = true) →
        exOk (peekStep (.entryKeys ks) (.arr l)) = true) := by
  refine ⟨?_, fun nm o => rfl, fun idx l => rfl, fun sv l => rfl,
    fun ks l h => peekKeysWalk_ok ks l h⟩
  intro i ss rest s h
  unfold peek at h ⊢
  rw [peekList_append, h]
  simp [peekList, peekStep_null s]

/-- C2 (witness): from the root `{}`, peeking `member "a"` yields no value,
and appending `member "b"` makes `peek` raise `AttributeError`. -/
theorem c2_peek_amended_witness :
    peek ⟨.obj [], []⟩ [.memberName "a"] = .ok .null ∧
    peek ⟨.obj [], []⟩ ([.memberName "a"] ++ .memberName "b" :: [])
      = .error .attributeError :=
  ⟨rfl, c2_peek_amended.1 ⟨.obj [], []⟩ [.memberName "a"] [] (.memberName "b") rfl⟩

/-! ### C7 (amended theorem) -/

theorem olookup_none_any_false {α : Type} (o : List (String × α)) (nm : String)
    (h : olookup o nm = none) : (o.any (fun p => p.1 == nm)) = false := by
  induction o with
  | nil => rfl
  | cons p rest ih =>
      obtain ⟨k, v⟩ := p
      cases hk : k == nm
      · simp only [olookup, hk, if_neg, Bool.false_eq_true, ite_false] at h
        simp [hk, ih h]
      · simp [olookup, hk] at h

/-- C7 (amended): the claim's chain is missing an `up`: for a focus object
without key `nm`, `new_member(nm, v)` focuses on `v` itself, so one must
first ascend; `new_member(nm, v).up.member(nm)` then succeeds and its focus
value is exactly `v`. -/
theorem c7_new_member_up_member (o : List (String × V)) (tr : List Crumb)
    (nm : String) (v : V) (h : olookup o nm = none) :
    (((new_member ⟨.obj o, tr⟩ nm v).bind up).bind (fun p => member p nm)).map
      Instance.value = .ok v := by
  have hany := olookup_none_any_false o nm h
  have h1 : new_member ⟨.obj o, tr⟩ nm v = .ok ⟨v, tr ++ [.memberCrumb nm (.obj o)]⟩ := by
    simp [new_member, pyContains, hany]
  have h2 : up ⟨v, tr ++ [.memberCrumb nm (.obj o)]⟩ = .ok ⟨.obj (o ++ [(nm, v)]), tr⟩ := by
    simp [up, getLast?_append_single, dropLast_append_single, zipC, osetItem, hany,
      Except.map]
  have hl : olookup (o ++ [(nm, v)]) nm = some v := by
    rw [olookup_append, h]
    simp [olookup]
  have h3 : member ⟨.obj (o ++ [(nm, v)]), tr⟩ nm
      = .ok ⟨v, tr ++ [.memberCrumb nm (.obj (oerase (o ++ [(nm, v)]) nm))]⟩ := by
    simp [member, hl]
  rw [h1]
  show ((up ⟨v, tr ++ [.memberCrumb nm (.obj o)]⟩).bind (fun p => member p nm)).map
      Instance.value = .ok v
  rw [h2]
  show (member ⟨.obj (o ++ [(nm, v)]), tr⟩ nm).map Instance.value = .ok v
  rw [h3]
  rfl

/-- C7 (witness): the amended chain at the root `{"y": 1}` with `v = 7`. -/
theorem c7_new_member_witness :
    olookup [("y", V.int 1)] "x" = none ∧
    (((new_member ⟨.obj [("y", .int 1)], []⟩ "x" (.int 7)).bind up).bind
        (fun p => member p "x")).map Instance.value = .ok (.int 7) :=
  ⟨rfl, c7_new_member_up_member [("y", .int 1)] [] "x" (.int 7) rfl⟩

/-! ### C3 (amended theorem) -/

/-- Whether a node value coerces to float without raising. -/
def coercibleXV (x : XV) : Bool :=
  match floatOfXV x with
  | .ok _ => true
  | .error _ => false

theorem eqMeth_all_internal (ns : List XNode) (v : XScalar)
    (h : ∀ n ∈ ns, n.internal = true) : eqMeth ns v = false := by
  induction ns with
  | nil => rfl
  | cons n rest ih =>
      have hn := h n (List.mem_cons_self n rest)
      have hr : ∀ x ∈ rest, x.internal = true :=
        fun x hx => h x (List.mem_cons_of_mem n hx)
      unfold eqMeth
      rw [hn]
      exact ih hr

theorem neMeth_all_internal (ns : List XNode) (v : XScalar)
    (h : ∀ n ∈ ns, n.internal = true) : neMeth ns v = false := by
  induction ns with
  | nil => rfl
  | cons n rest ih =>
      have hn := h n (List.mem_cons_self n rest)
      have hr : ∀ x ∈ rest, x.internal = true :=
        fun x hx => h x (List.mem_cons_of_mem n hx)
      unfold neMeth
      rw [hn]
      exact ih hr

theorem ordScan_not_coercible (cmp : Q → Q → Bool) (q : Q) (ns : List XNode)
    (h : ∀ n ∈ ns, coercibleXV n.value = false) : ordScan cmp q ns = false := by
  induction ns with
  | nil => rfl
  | cons n rest ih =>
      have hn := h n (List.mem_cons_self n rest)
      have hr : ∀ x ∈ rest, coercibleXV x.value = false :=
        fun x hx => h x (List.mem_cons_of_mem n hx)
      unfold ordScan
      cases hf : floatOfXV n.value with
      | ok r => simp [coercibleXV, hf] at hn
      | error e => exact ih hr

/-- C3 (amended): the internal flag excludes members from the equality and
inequality comparisons — an all-internal set compares `False` under `=` and
`≠` against any scalar — but the four ordering comparisons never consult the
flag: they skip a member only when its value fails float coercion, so an
all-internal set orders `False` against every scalar only when no member's
value coerces (an internal member with a coercible value does participate,
as the counterexample shows). -/
theorem c3_internal_comparisons_amended (ns : List XNode) (v : XScalar)
    (hall : ∀ n ∈ ns, n.internal = true) :
    nsEq ns (.sc v) = false ∧ nsNe ns (.sc v) = false ∧
    ((∀ n ∈ ns, coercibleXV n.value = false) →
        nsGt ns (.sc v) = false ∧ nsLt ns (.sc v) = false ∧
        nsGe ns (.sc v) = false ∧ nsLe ns (.sc v) = false) := by
  refine ⟨eqMeth_all_internal ns v hall, neMeth_all_internal ns v hall, fun hco => ?_⟩
  have hs : ∀ (cmp : Q → Q → Bool) (q : Q), ordScan cmp q ns = false :=
    fun cmp q => ordScan_not_coercible cmp q ns hco
  refine ⟨?_, ?_, ?_, ?_⟩ <;>
    · show (match floatOfScalar v with
        | .error _ => false
        | .ok q => ordScan _ q ns) = false
      cases floatOfScalar v <;> simp [hs]

/-- C3 (witness): an all-internal set with a non-coercible value compares
`False` under both `=` and `>` against the float 3. -/
theorem c3_internal_witness :
    nsEq [⟨0, .s "x", "x", true⟩] (.sc (.f (qOfInt 3))) = false ∧
    nsGt [⟨0, .s "x", "x", true⟩] (.sc (.f (qOfInt 3))) = false := by
  have hall : ∀ n ∈ [(⟨0, .s "x", "x", true⟩ : XNode)], n.internal = true := by
    intro n hn
    rw [List.mem_singleton] at hn
    subst hn
    rfl
  have hco : ∀ n ∈ [(⟨0, .s "x", "x", true⟩ : XNode)], coercibleXV n.value = false := by
    intro n hn
    rw [List.mem_singleton] at hn
    subst hn
    rfl
  exact ⟨(c3_internal_comparisons_amended _ _ hall).1,
         ((c3_internal_comparisons_amended _ _ hall).2.2 hco).1⟩

/-! ### C5 -/

/-- C5: `member` never mutates the receiver. In the heap model, with the
focus referencing a dict cell `a` binding `nm ↦ v`, `memberH` copies that
dict to a *fresh* cell, pops `nm` from the copy, and returns an instance
focused on `v`; the cell at `a` — the object backing the receiver — is
byte-for-byte unchanged (so it still binds `nm ↦ v`), and the receiver's
value and trace, being immutable values, are untouched. -/
theorem c5_member_frame (h : Heap) (a : Nat) (d : List (String × HV))
    (tr : List HCrumb) (nm : String) (v : HV)
    (hd : h[a]? = some d) (hv : olookup d nm = some v) :
    memberH h ⟨.href a, tr⟩ nm
      = .ok (h ++ [oerase d nm], ⟨v, tr ++ [.memberCrumbH nm (.href h.length)]⟩) ∧
    (h ++ [oerase d nm])[a]? = some d := by
  constructor
  · simp [memberH, hd, hv]
  · have ha : a < h.length := by
      by_contra hcon
      push_neg at hcon
      rw [List.getElem?_eq_none hcon] at hd
      exact Option.noConfusion hd
    rw [List.getElem?_append, if_pos ha]
    exact hd

/-- C5 (witness): the frame property at a one-cell heap holding `{"x": 1}`. -/
theorem c5_member_frame_witness :
    ([[("x", HV.prim (.int 1))]] : Heap)[0]? = some [("x", HV.prim (.int 1))] ∧
    olookup [("x", HV.prim (.int 1))] "x" = some (HV.prim (.int 1)) ∧
    (memberH [[("x", HV.prim (.int 1))]] ⟨.href 0, []⟩ "x"
        = .ok ([[("x", HV.prim (.int 1))]] ++ [oerase [("x", HV.prim (.int 1))] "x"],
               ⟨.prim (.int 1), [] ++ [.memberCrumbH "x" (.href 1)]⟩) ∧
     (([[("x", HV.prim (.int 1))]] : Heap) ++ [oerase [("x", HV.prim (.int 1))] "x"])[0]?
        = some [("x", HV.prim (.int 1))]) :=
  ⟨rfl, rfl,
   c5_member_frame [[("x", HV.prim (.int 1))]] 0 [("x", HV.prim (.int 1))] [] "x"
     (HV.prim (.int 1)) rfl rfl⟩

/-! ### C4 helper lemmas: Python indexing and slicing facts -/

theorem pyGetItem_some_elim (l : List V) (idx : Int) (v : V)
    (h : pyGetItem l idx = some v) :
    ∃ (k : Nat) (hkl : k < l.length),
      pyIdx l.length idx = (k : Int) ∧ v = l.get ⟨k, hkl⟩ := by
  unfold pyGetItem at h
  split at h
  case isTrue hcond =>
      refine ⟨(pyIdx l.length idx).toNat, by omega, by omega, ?_⟩
      injection h with h2
      exact h2.symm
  case isFalse hcond => exact absurd h (fun c => Option.noConfusion c)

theorem entry_ok_elim (l : List V) (tr : List Crumb) (idx : Int) (j : Instance)
    (hok : entry ⟨.arr l, tr⟩ idx = .ok j) :
    ∃ (k : Nat) (hkl : k < l.length), pyIdx l.length idx = (k : Int) ∧
      j = ⟨l.get ⟨k, hkl⟩,
           tr ++ [.entryCrumb (pyTakeTo l idx) (pyDropFrom l (idx + 1))]⟩ := by
  have hentry : entry ⟨.arr l, tr⟩ idx
      = (match pyGetItem l idx with
         | some v =>
            .ok ⟨v, tr ++ [.entryCrumb (pyTakeTo l idx) (pyDropFrom l (idx + 1))]⟩
         | none => .error (.nonexistentInstance ("entry " ++ toString idx))) := rfl
  rw [hentry] at hok
  cases hgi : pyGetItem l idx with
  | none => rw [hgi] at hok; exact absurd hok (fun c => Except.noConfusion c)
  | some v =>
      rw [hgi] at hok
      obtain ⟨k, hkl, hpi, hv⟩ := pyGetItem_some_elim l idx v hgi
      injection hok with h2
      exact ⟨k, hkl, hpi, by rw [← h2, hv]⟩

theorem pyTakeTo_nonneg (l : List V) (k : Nat) (hk : k ≤ l.length) :
    pyTakeTo l (k : Int) = l.take k := by
  unfold pyTakeTo pyBound pyIdx
  rw [if_neg (by omega)]
  congr 1
  omega

theorem pyDropFrom_nonneg (l : List V) (k : Nat) (hk : k ≤ l.length) :
    pyDropFrom l (k : Int) = l.drop k := by
  unfold pyDropFrom pyBound pyIdx
  rw [if_neg (by omega)]
  congr 1
  omega

theorem entry_nonneg_up (l : List V) (tr : List Crumb) (idx : Int) (j : Instance)
    (hpos : 0 ≤ idx) (hok : entry ⟨.arr l, tr⟩ idx = .ok j) :
    up j = .ok ⟨.arr l, tr⟩ := by
  obtain ⟨k, hkl, hpi, hj⟩ := entry_ok_elim l tr idx j hok
  have hidx : idx = (k : Int) := by
    unfold pyIdx at hpi
    rw [if_neg (by omega)] at hpi
    exact hpi
  subst hj
  subst hidx
  simp only [up, getLast?_append_single, dropLast_append_single, zipC, Except.map]
  rw [pyTakeTo_nonneg l k hkl.le,
      show ((k : Int) + 1) = ((k + 1 : Nat) : Int) by push_cast; ring,
      pyDropFrom_nonneg l (k + 1) (by omega)]
  rw [List.get_eq_getElem, ← List.drop_eq_getElem_cons hkl, List.take_append_drop]

theorem entry_le_neg_two_up (l : List V) (tr : List Crumb) (idx : Int) (j : Instance)
    (hneg : idx ≤ -2) (hok : entry ⟨.arr l, tr⟩ idx = .ok j) :
    up j = .ok ⟨.arr l, tr⟩ := by
  obtain ⟨k, hkl, hpi, hj⟩ := entry_ok_elim l tr idx j hok
  have hidx : idx = (k : Int) - l.length := by
    unfold pyIdx at hpi
    rw [if_pos (by omega)] at hpi
    omega
  subst hj
  have h1 : pyTakeTo l idx = l.take k := by
    unfold pyTakeTo pyBound pyIdx
    rw [if_pos (by omega)]
    congr 1
    omega
  have h2 : pyDropFrom l (idx + 1) = l.drop (k + 1) := by
    unfold pyDropFrom pyBound pyIdx
    rw [if_pos (by omega)]
    congr 1
    omega
  simp only [up, getLast?_append_single, dropLast_append_single, zipC, Except.map, h1, h2]
  rw [List.get_eq_getElem, ← List.drop_eq_getElem_cons hkl, List.take_append_drop]

theorem pyGetItem_in_range (l : List V) (idx : Int) (h0 : 0 ≤ pyIdx l.length idx)
    (h1 : pyIdx l.length idx < l.length) :
    pyGetItem l idx = l[(pyIdx l.length idx).toNat]? := by
  unfold pyGetItem
  rw [dif_pos ⟨h0, h1⟩]
  rw [List.getElem?_eq_getElem (by omega)]
  congr 1

theorem entry_neg_one_roundtrip (l : List V) (tr : List Crumb) (j : Instance)
    (hok : entry ⟨.arr l, tr⟩ (-1) = .ok j) :
    ((up j).bind (fun p => entry p (-1))).map Instance.value = .ok j.value := by
  obtain ⟨k, hkl, hpi, hj⟩ := entry_ok_elim l tr (-1) j hok
  have hn1 : l.length = k + 1 := by
    unfold pyIdx at hpi
    rw [if_pos (by omega)] at hpi
    omega
  have h1 : pyTakeTo l (-1) = l.take k := by
    unfold pyTakeTo pyBound pyIdx
    rw [if_pos (by omega)]
    congr 1
    omega
  have h2 : pyDropFrom l (-1 + 1) = l := by
    unfold pyDropFrom pyBound pyIdx
    rw [if_neg (by omega)]
    have h0 : (min (max (-1 + 1 : Int) 0) (l.length : Int)).toNat = 0 := by omega
    rw [h0, List.drop_zero]
  subst hj
  simp only [up, getLast?_append_single, dropLast_append_single, zipC, Except.map, h1, h2]
  show (entry ⟨.arr (l.take k ++ l.get ⟨k, hkl⟩ :: l), tr⟩ (-1)).map Instance.value
      = .ok (l.get ⟨k, hkl⟩)
  have hlen : (l.take k ++ l.get ⟨k, hkl⟩ :: l).length = 2 * k + 2 := by
    simp only [List.length_append, List.length_cons, List.length_take]
    omega
  have hget : pyGetItem (l.take k ++ l.get ⟨k, hkl⟩ :: l) (-1) = some (l.get ⟨k, hkl⟩) := by
    have hcond : pyIdx (l.take k ++ l.get ⟨k, hkl⟩ :: l).length (-1) = (2 * k + 1 : Int) := by
      unfold pyIdx
      rw [if_pos (by norm_num), hlen]
      push_cast
      ring
    rw [pyGetItem_in_range _ _ (by rw [hcond]; omega) (by rw [hcond]; omega)]
    rw [hcond]
    have hm : ((2 * (k : Int) + 1)).toNat = 2 * k + 1 := by omega
    rw [hm]
    rw [List.getElem?_append, if_neg (by simp only [List.length_take]; omega)]
    have hlt : (l.take k).length = k := by
      simp only [List.length_take]
      omega
    rw [hlt]
    have hsub : 2 * k + 1 - k = k + 1 := by omega
    rw [hsub, List.getElem?_cons_succ, List.getElem?_eq_getElem hkl]
    congr 1
  have hentry : entry ⟨.arr (l.take k ++ l.get ⟨k, hkl⟩ :: l), tr⟩ (-1)
      = (match pyGetItem (l.take k ++ l.get ⟨k, hkl⟩ :: l) (-1) with
         | some v =>
            .ok ⟨v, tr ++ [.entryCrumb (pyTakeTo (l.take k ++ l.get ⟨k, hkl⟩ :: l) (-1))
                             (pyDropFrom (l.take k ++ l.get ⟨k, hkl⟩ :: l) (-1 + 1))]⟩
         | none => .error (.nonexistentInstance ("entry " ++ toString (-1 : Int)))) := rfl
  rw [hentry, hget]
  rfl

theorem member_roundtrip (i : Instance) (nm : String) (j : Instance)
    (hok : member i nm = .ok j) :
    ((up j).bind (fun p => member p nm)).map Instance.value = .ok j.value := by
  obtain ⟨val, tr⟩ := i
  cases val with
  | obj o =>
      have hmem : member ⟨.obj o, tr⟩ nm
          = (match olookup o nm with
             | some v => .ok ⟨v, tr ++ [.memberCrumb nm (.obj (oerase o nm))]⟩
             | none => .error (.nonexistentInstance ("member " ++ nm))) := rfl
      rw [hmem] at hok
      cases hl : olookup o nm with
      | none => rw [hl] at hok; exact absurd hok (fun c => Except.noConfusion c)
      | some v =>
          rw [hl] at hok
          injection hok with h2
          subst h2
          have hup : up ⟨v, tr ++ [.memberCrumb nm (.obj (oerase o nm))]⟩
              = .ok ⟨.obj (oerase o nm ++ [(nm, v)]), tr⟩ := by
            simp [up, getLast?_append_single, dropLast_append_single, zipC, Except.map,
              osetItem, any_oerase]
          rw [hup]
          show (member ⟨.obj (oerase o nm ++ [(nm, v)]), tr⟩ nm).map Instance.value = .ok v
          have hl2 : olookup (oerase o nm ++ [(nm, v)]) nm = some v := by
            rw [olookup_append, olookup_oerase]
            simp [olookup]
          have hmem2 : member ⟨.obj (oerase o nm ++ [(nm, v)]), tr⟩ nm
              = (match olookup (oerase o nm ++ [(nm, v)]) nm with
                 | some w => .ok ⟨w, tr ++ [.memberCrumb nm
                     (.obj (oerase (oerase o nm ++ [(nm, v)]) nm))]⟩
                 | none => .error (.nonexistentInstance ("member " ++ nm))) := rfl
          rw [hmem2, hl2]
          rfl
  | null => exact absurd hok (fun c => Except.noConfusion c)
  | bool b => exact absurd hok (fun c => Except.noConfusion c)
  | int n => exact absurd hok (fun c => Except.noConfusion c)
  | str s0 => exact absurd hok (fun c => Except.noConfusion c)
  | arr l => exact absurd hok (fun c => Except.noConfusion c)

theorem lookUpWalk_ok_elim (i : Instance) (ks : List (String × V)) (l2 : List V) :
    ∀ (idx : Nat) (j : Instance), lookUpWalk i ks l2 idx = .ok j →
      ∃ m : Nat, entry i (m : Int) = .ok j := by
  induction l2 with
  | nil => intro idx j h; exact absurd h (fun c => Except.noConfusion c)
  | cons en rest ih =>
      intro idx j h
      have heq : lookUpWalk i ks (en :: rest) idx
          = (match matchEntry ks en with
             | .error .keyError => .error (.nonexistentInstance "entry lookup failed")
             | .error _ => .error (.instanceTypeError "lookup on non-list")
             | .ok true => entry i (idx : Int)
             | .ok false => lookUpWalk i ks rest (idx + 1)) := rfl
      rw [heq] at h
      cases hm : matchEntry ks en with
      | error e =>
          rw [hm] at h
          cases e <;> exact absurd h (fun c => Except.noConfusion c)
      | ok bb =>
          rw [hm] at h
          cases bb
          · exact ih (idx + 1) j h
          · exact ⟨idx, h⟩

/-- C4 (amended): the general round trip holds: whenever any of the four
selectors navigates successfully, ascending with `up` and re-navigating via
the same selector reaches a focus with the very same value. The claim's
"in particular" part holds for every valid index *except `-1`*:
`entry(i).up` reproduces the original array for every in-range index other
than `-1` (in particular all non-negative ones), while at `-1` the slice
`val[index+1:]` is the whole array and reconstruction duplicates it, as the
counterexample shows. -/
theorem c4_roundtrip_amended :
    (∀ (s : Selector) (i j : Instance), gotoStep s i = .ok j →
        ((up j).bind (fun p => gotoStep s p)).map Instance.value = .ok j.value) ∧
    (∀ (l : List V) (tr : List Crumb) (idx : Int) (j : Instance),
        idx ≠ -1 → entry ⟨.arr l, tr⟩ idx = .ok j →
        (up j).map Instance.value = .ok (.arr l)) := by
  refine ⟨?_, ?_⟩
  · intro s i j hok
    cases s with
    | memberName nm => exact member_roundtrip i nm j hok
    | entryIndex idx =>
        obtain ⟨val, tr⟩ := i
        cases val with
        | arr l =>
            by_cases hix : idx = -1
            · subst hix
              exact entry_neg_one_roundtrip l tr j hok
            · have hok2 : entry ⟨.arr l, tr⟩ idx = .ok j := hok
              have hup : up j = .ok ⟨.arr l, tr⟩ := by
                by_cases hpos : 0 ≤ idx
                · exact entry_nonneg_up l tr idx j hpos hok2
                · exact entry_le_neg_two_up l tr idx j (by omega) hok2
              rw [hup]
              show (entry ⟨.arr l, tr⟩ idx).map Instance.value = .ok j.value
              rw [hok2]
              rfl
        | null => exact absurd hok (fun c => Except.noConfusion c)
        | bool b => exact absurd hok (fun c => Except.noConfusion c)
        | int n => exact absurd hok (fun c => Except.noConfusion c)
        | str s0 => exact absurd hok (fun c => Except.noConfusion c)
        | obj o => exact absurd hok (fun c => Except.noConfusion c)
    | entryValue sv =>
        obtain ⟨val, tr⟩ := i
        cases val with
        | arr l =>
            have hgo : gotoStep (.entryValue sv) ⟨.arr l, tr⟩
                = (match pyListIndex l sv with
                   | some k => entry ⟨.arr l, tr⟩ (k : Int)
                   | none => .error (.nonexistentInstance ("entry " ++ pyStrOf sv))) := rfl
            rw [hgo] at hok
            cases hli : pyListIndex l sv with
            | none => rw [hli] at hok; exact absurd hok (fun c => Except.noConfusion c)
            | some k =>
                rw [hli] at hok
                have hup := entry_nonneg_up l tr (k : Int) j (by omega) hok
                rw [hup]
                show (gotoStep (.entryValue sv) ⟨.arr l, tr⟩).map Instance.value = .ok j.value
                rw [hgo, hli, hok]
                rfl
        | str s0 =>
            cases sv with
            | str t =>
                have hgo : gotoStep (.entryValue (.str t)) ⟨.str s0, tr⟩
                    = (match subPos s0.data t.data 0 with
                       | some p => entry ⟨.str s0, tr⟩ (p : Int)
                       | none => .error (.nonexistentInstance
                           ("entry " ++ pyStrOf (.str t)))) := rfl
                rw [hgo] at hok
                cases hsp : subPos s0.data t.data 0 with
                | none => rw [hsp] at hok; exact absurd hok (fun c => Except.noConfusion c)
                | some p => rw [hsp] at hok; exact absurd hok (fun c => Except.noConfusion c)
            | null => exact absurd hok (fun c => Except.noConfusion c)
            | bool b => exact absurd hok (fun c => Except.noConfusion c)
            | int n => exact absurd hok (fun c => Except.noConfusion c)
            | arr l => exact absurd hok (fun c => Except.noConfusion c)
            | obj o => exact absurd hok (fun c => Except.noConfusion c)
        | null => exact absurd hok (fun c => Except.noConfusion c)
        | bool b => exact absurd hok (fun c => Except.noConfusion c)
        | int n => exact absurd hok (fun c => Except.noConfusion c)
        | obj o => exact absurd hok (fun c => Except.noConfusion c)
    | entryKeys ks =>
        obtain ⟨val, tr⟩ := i
        cases val with
        | arr l =>
            have hgo : gotoStep (.entryKeys ks) ⟨.arr l, tr⟩
                = lookUpWalk ⟨.arr l, tr⟩ ks l 0 := rfl
            rw [hgo] at hok
            obtain ⟨m, hm⟩ := lookUpWalk_ok_elim ⟨.arr l, tr⟩ ks l 0 j hok
            have hup := entry_nonneg_up l tr (m : Int) j (by omega) hm
            rw [hup]
            show (gotoStep (.entryKeys ks) ⟨.arr l, tr⟩).map Instance.value = .ok j.value
            rw [hgo, hok]
            rfl
        | null => exact absurd hok (fun c => Except.noConfusion c)
        | bool b => exact absurd hok (fun c => Except.noConfusion c)
        | int n => exact absurd hok (fun c => Except.noConfusion c)
        | str s0 => exact absurd hok (fun c => Except.noConfusion c)
        | obj o => exact absurd hok (fun c => Except.noConfusion c)
  · intro l tr idx j hix hok
    have hup : up j = .ok ⟨.arr l, tr⟩ := by
      by_cases hpos : 0 ≤ idx
      · exact entry_nonneg_up l tr idx j hpos hok
      · exact entry_le_neg_two_up l tr idx j (by omega) hok
    rw [hup]
    rfl

/-- C4 (witness): the member round trip at `{"a": 1, "b": 2}` and the
array reconstruction for `entry(0)` on `[5, 6]`. -/
theorem c4_roundtrip_witness :
    gotoStep (.memberName "a") ⟨.obj [("a", .int 1), ("b", .int 2)], []⟩
      = .ok ⟨.int 1, [.memberCrumb "a" (.obj [("b", .int 2)])]⟩ ∧
    ((up ⟨.int 1, [.memberCrumb "a" (.obj [("b", .int 2)])]⟩).bind
        (fun p => gotoStep (.memberName "a") p)).map Instance.value = .ok (.int 1) ∧
    entry ⟨.arr [.int 5, .int 6], []⟩ 0 = .ok ⟨.int 5, [.entryCrumb [] [.int 6]]⟩ ∧
    (up ⟨.int 5, [.entryCrumb [] [.int 6]]⟩).map Instance.value
      = .ok (.arr [.int 5, .int 6]) :=
  ⟨rfl,
   c4_roundtrip_amended.1 (.memberName "a") ⟨.obj [("a", .int 1), ("b", .int 2)], []⟩
     ⟨.int 1, [.memberCrumb "a" (.obj [("b", .int 2)])]⟩ rfl,
   rfl,
   c4_roundtrip_amended.2 [.int 5, .int 6] [] 0 ⟨.int 5, [.entryCrumb [] [.int 6]]⟩
     (by omega) rfl⟩

/-! ### C6: the union comprehension -/

/-- Spec-side: insert one path into the running key list of the
comprehension (an existing key keeps its position, a new key is appended). -/
def insKey (ks : List Nat) (p : Nat) : List Nat :=
  if ks.any (fun k => k == p) then ks else ks ++ [p]

theorem natBeqComm (a b : Nat) : (a == b) = (b == a) := by
  by_cases h : a = b
  · subst h; rfl
  · have h1 : (a == b) = false := beq_eq_false_iff_ne.mpr h
    have h2 : (b == a) = false := beq_eq_false_iff_ne.mpr (fun e => h e.symm)
    rw [h1, h2]

theorem firstKeys_cons (p : Nat) (ps : List Nat) :
    firstKeys (p :: ps) = p :: firstKeys (ps.filter (fun q => !(q == p))) := by
  rw [firstKeys]

theorem keys_dictInsertN (d : List (Nat × XNode)) (n : XNode) :
    (dictInsertN d n).map (fun p => p.1) = insKey (d.map (fun p => p.1)) n.path := by
  unfold dictInsertN insKey
  have hc : ((d.map (fun p => p.1)).any (fun k => k == n.path))
      = d.any (fun p => p.1 == n.path) := by
    induction d with
    | nil => rfl
    | cons p rest ih => simp [List.any_cons, ih]
  rw [hc]
  cases hd : d.any (fun p => p.1 == n.path)
  · rw [if_neg Bool.false_ne_true, if_neg Bool.false_ne_true, List.map_append]
    rfl
  · rw [if_pos rfl, if_pos rfl, List.map_map]
    apply List.map_congr_left
    intro p hp
    by_cases hpk : (p.1 == n.path)
    · have hpe : p.1 = n.path := by simpa using hpk
      simp [Function.comp, hpk, hpe]
    · simp [Function.comp, hpk]

theorem keys_buildDict (l : List XNode) :
    ∀ d : List (Nat × XNode),
      (l.foldl dictInsertN d).map (fun p => p.1)
        = (l.map XNode.path).foldl insKey (d.map (fun p => p.1)) := by
  induction l with
  | nil => intro d; rfl
  | cons n rest ih =>
      intro d
      simp only [List.foldl_cons, List.map_cons]
      rw [ih (dictInsertN d n), keys_dictInsertN]

theorem foldl_insKey_firstKeys (ps : List Nat) :
    ∀ ks : List Nat,
      ps.foldl insKey ks
        = ks ++ firstKeys (ps.filter (fun p => !(ks.any (fun k => k == p)))) := by
  induction ps with
  | nil =>
      intro ks
      simp [firstKeys]
  | cons p ps2 ih =>
      intro ks
      simp only [List.foldl_cons, List.filter_cons]
      cases hp : ks.any (fun k => k == p)
      · have h1 : insKey ks p = ks ++ [p] := by simp [insKey, hp]
        rw [h1, ih (ks ++ [p])]
        have hfil : ps2.filter (fun q => !((ks ++ [p]).any (fun k => k == q)))
            = (ps2.filter (fun q => !(ks.any (fun k => k == q)))).filter
                (fun q => !(q == p)) := by
          rw [List.filter_filter]
          apply List.filter_congr
          intro q hq
          simp only [List.any_append, List.any_cons, List.any_nil, Bool.or_false,
            Bool.not_or]
          rw [natBeqComm p q, Bool.and_comm]
        rw [hfil, if_pos (show (!false) = true from rfl), firstKeys_cons]
        simp [List.append_assoc]
      · have h1 : insKey ks p = ks := by simp [insKey, hp]
        rw [h1, ih ks, if_neg (show ¬((!true) = true) from Bool.false_ne_true)]

theorem mem_firstKeys : ∀ (nb : Nat) (l : List Nat), l.length ≤ nb →
    ∀ q, (q ∈ firstKeys l ↔ q ∈ l) := by
  intro nb
  induction nb with
  | zero =>
      intro l hl q
      have hnil : l = [] := List.eq_nil_of_length_eq_zero (Nat.le_zero.mp hl)
      subst hnil
      simp [firstKeys]
  | succ nb ih =>
      intro l hl q
      cases l with
      | nil => simp [firstKeys]
      | cons p ps =>
          rw [firstKeys_cons]
          simp only [List.mem_cons]
          have hlen : (ps.filter (fun q2 => !(q2 == p))).length ≤ nb := by
            have := List.length_filter_le (fun q2 => !(q2 == p)) ps
            simp only [List.length_cons] at hl
            omega
          constructor
          · rintro (h | h)
            · left; exact h
            · right
              exact List.mem_of_mem_filter ((ih _ hlen q).mp h)
          · rintro (h | h)
            · left; exact h
            · by_cases hqp : q = p
              · left; exact hqp
              · right
                exact (ih _ hlen q).mpr (List.mem_filter.mpr ⟨h, by simp [hqp]⟩)

theorem nodup_firstKeys : ∀ (nb : Nat) (l : List Nat), l.length ≤ nb →
    (firstKeys l).Nodup := by
  intro nb
  induction nb with
  | zero =>
      intro l hl
      have hnil : l = [] := List.eq_nil_of_length_eq_zero (Nat.le_zero.mp hl)
      subst hnil
      simp [firstKeys]
  | succ nb ih =>
      intro l hl
      cases l with
      | nil => simp [firstKeys]
      | cons p ps =>
          rw [firstKeys_cons]
          have hlen : (ps.filter (fun q2 => !(q2 == p))).length ≤ nb := by
            have := List.length_filter_le (fun q2 => !(q2 == p)) ps
            simp only [List.length_cons] at hl
            omega
          refine List.nodup_cons.mpr ⟨?_, ih _ hlen⟩
          intro hmem
          have h2 := (mem_firstKeys _ _ le_rfl p).mp hmem
          have h3 := (List.mem_filter.mp h2).2
          simp at h3

theorem length_firstKeys_eq_dedup (ps : List Nat) :
    (firstKeys ps).length = ps.dedup.length := by
  have h1 : (firstKeys ps).toFinset = ps.toFinset := by
    ext q
    simp [List.mem_toFinset, mem_firstKeys ps.length ps le_rfl]
  have h4 : ps.dedup.toFinset = ps.toFinset := by
    ext q
    simp [List.mem_toFinset, List.mem_dedup]
  calc (firstKeys ps).length
      = (firstKeys ps).toFinset.card :=
        (List.toFinset_card_of_nodup (nodup_firstKeys ps.length ps le_rfl)).symm
    _ = ps.toFinset.card := by rw [h1]
    _ = ps.dedup.toFinset.card := by rw [h4]
    _ = ps.dedup.length := List.toFinset_card_of_nodup (List.nodup_dedup ps)

theorem buildDict_key_inv (l : List XNode) :
    ∀ d, (∀ p ∈ d, p.1 = p.2.path) → ∀ p ∈ l.foldl dictInsertN d, p.1 = p.2.path := by
  induction l with
  | nil => intro d hd; exact hd
  | cons n rest ih =>
      intro d hd
      apply ih
      intro p hp
      unfold dictInsertN at hp
      by_cases hc : (d.any (fun p2 => p2.1 == n.path))
      · rw [if_pos hc] at hp
        obtain ⟨p0, hp0, hEq⟩ := List.mem_map.mp hp
        by_cases hpk : (p0.1 == n.path)
        · rw [if_pos hpk] at hEq
          rw [← hEq]
        · rw [if_neg hpk] at hEq
          rw [← hEq]
          exact hd p0 hp0
      · rw [if_neg hc] at hp
        rcases List.mem_append.mp hp with h | h
        · exact hd p h
        · rw [List.mem_singleton] at h
          subst h
          rfl

theorem mem_dictInsertN_self (d : List (Nat × XNode)) (n : XNode) :
    (n.path, n) ∈ dictInsertN d n := by
  unfold dictInsertN
  by_cases hc : (d.any (fun p => p.1 == n.path))
  · rw [if_pos hc]
    obtain ⟨p0, hp0, hpk⟩ := List.any_eq_true.mp hc
    refine List.mem_map.mpr ⟨p0, hp0, ?_⟩
    rw [if_pos hpk]
  · rw [if_neg hc]
    exact List.mem_append_right _ (List.mem_singleton.mpr rfl)

theorem mem_foldl_dictInsertN_of_fresh (l2 : List XNode) (q : Nat) (x : XNode) :
    ∀ d, (q, x) ∈ d → (∀ m ∈ l2, m.path ≠ q) → (q, x) ∈ l2.foldl dictInsertN d := by
  induction l2 with
  | nil => intro d hd _; exact hd
  | cons m rest ih =>
      intro d hd hl
      apply ih
      · have hmq : m.path ≠ q := hl m (List.mem_cons_self m rest)
        unfold dictInsertN
        by_cases hc : (d.any (fun p => p.1 == m.path))
        · rw [if_pos hc]
          refine List.mem_map.mpr ⟨(q, x), hd, ?_⟩
          rw [if_neg (by simp only [beq_iff_eq]; exact fun e => hmq e.symm)]
        · rw [if_neg hc]
          exact List.mem_append_left _ hd
      · exact fun m2 hm2 => hl m2 (List.mem_cons_of_mem m hm2)

theorem mem_buildDict_of_last (l1 l2 : List XNode) (n : XNode)
    (hfresh : ∀ m ∈ l2, m.path ≠ n.path) :
    (n.path, n) ∈ buildDict (l1 ++ n :: l2) := by
  unfold buildDict
  rw [List.foldl_append, List.foldl_cons]
  exact mem_foldl_dictInsertN_of_fresh l2 n.path n _ (mem_dictInsertN_self _ n) hfresh

/-- C6: `union` deduplicates by path identity with last-write-wins and
first-insertion enumeration order: the paths of `s.union(t)`, in order, are
exactly the distinct paths of `s ++ t` in order of first occurrence (hence
exactly one node per distinct path and the size is the number of distinct
paths); and when the sets are path-deduplicated, each node of `t` survives
into the union verbatim — on a shared path the kept occurrence is `t`'s. -/
theorem c6_union_spec (s t : List XNode) :
    ((union s t).map XNode.path = firstKeys ((s ++ t).map XNode.path)) ∧
    ((union s t).map XNode.path).Nodup ∧
    ((union s t).length = ((s ++ t).map XNode.path).dedup.length) ∧
    ((t.map XNode.path).Nodup → ∀ n ∈ t, n ∈ union s t) := by
  have hmap : (union s t).map XNode.path = (buildDict (s ++ t)).map (fun p => p.1) := by
    unfold union
    rw [List.map_map]
    apply List.map_congr_left
    intro p hp
    exact (buildDict_key_inv (s ++ t) [] (fun p2 hp2 => absurd hp2 (List.not_mem_nil p2))
      p hp).symm
  have hkeys : (union s t).map XNode.path = firstKeys ((s ++ t).map XNode.path) := by
    rw [hmap]
    have h0 : (buildDict (s ++ t)).map (fun p => p.1)
        = ((s ++ t).map XNode.path).foldl insKey
            (([] : List (Nat × XNode)).map (fun p => p.1)) := keys_buildDict (s ++ t) []
    rw [h0, foldl_insKey_firstKeys]
    simp
  refine ⟨hkeys, ?_, ?_, ?_⟩
  · rw [hkeys]
    exact nodup_firstKeys _ _ le_rfl
  · have hlen : (union s t).length = ((union s t).map XNode.path).length :=
      (List.length_map _ _).symm
    rw [hlen, hkeys, length_firstKeys_eq_dedup]
  · intro hnd n hn
    obtain ⟨t1, t2, ht⟩ := List.append_of_mem hn
    subst ht
    have hfresh : ∀ m ∈ t2, m.path ≠ n.path := by
      intro m hm
      have hsub : ((n :: t2).map XNode.path).Sublist ((t1 ++ n :: t2).map XNode.path) :=
        (List.sublist_append_right t1 (n :: t2)).map XNode.path
      have h2 : ((n :: t2).map XNode.path).Nodup := List.Nodup.sublist hsub hnd
      rw [List.map_cons, List.nodup_cons] at h2
      intro hEq
      exact h2.1 (hEq ▸ List.mem_map_of_mem XNode.path hm)
    have hmem := mem_buildDict_of_last (s ++ t1) t2 n hfresh
    unfold union
    rw [show s ++ (t1 ++ n :: t2) = (s ++ t1) ++ n :: t2 from
      (List.append_assoc s t1 (n :: t2)).symm]
    exact List.mem_map.mpr ⟨(n.path, n), hmem, rfl⟩

/-- C6 (witness): unioning `{path 0, path 1}` with `{path 1, path 2}` at
concrete nodes — `t`'s occurrence of path 1 survives. -/
theorem c6_union_witness :
    (([(⟨1, .num (qOfInt 9), "9", false⟩ : XNode),
       ⟨2, .num (qOfInt 3), "3", false⟩].map XNode.path).Nodup) ∧
    (⟨1, .num (qOfInt 9), "9", false⟩ : XNode) ∈
      union [⟨0, .num (qOfInt 1), "1", false⟩, ⟨1, .num (qOfInt 2), "2", false⟩]
            [⟨1, .num (qOfInt 9), "9", false⟩, ⟨2, .num (qOfInt 3), "3", false⟩] :=
  ⟨by decide,
   (c6_union_spec [⟨0, .num (qOfInt 1), "1", false⟩, ⟨1, .num (qOfInt 2), "2", false⟩]
      [⟨1, .num (qOfInt 9), "9", false⟩, ⟨2, .num (qOfInt 3), "3", false⟩]).2.2.2
     (by decide) ⟨1, .num (qOfInt 9), "9", false⟩ (by decide)⟩

end Yangson

